import Mathlib

/-!
Verification of the `ng-fire-and-forget-polling` repository: a shallow
embedding of its random-number service, its NgRx reducer, its min/max input
form and its polling effect, together with proofs of the behavioural
properties stated in the specification.
-/

/-! ## Value Source: `RandomNumberService.getRandomInteger`

Source (`random-number.service.ts`):
`const num = Math.floor(Math.random() * (max - min)) + min; return of(num);`

`Math.random()` is modelled as an explicit rational input `random` with
`0 ≤ random < 1`; the arithmetic is exact over `ℚ`/`ℤ`.
-/

def getRandomInteger (random : ℚ) (min max : ℤ) : ℤ :=
  Int.floor (random * ((max : ℚ) - (min : ℚ))) + min

/-! ## State Store: `random-number.reducer.ts`

The `pollingError` action carries a JavaScript `Error` object; the reducer
stores `error.message`.  The `pollingInterval` field of the initial state is
read from `environment.pollingInterval`; the environment file only provides a
constant, modelled here as the parameter of `initialState`.
-/

structure JsError where
  message : String
deriving DecidableEq

structure RandomNumberState where
  min : Int
  max : Int
  randomNumber : Int
  errorMsg : String
  pollingInterval : Int
deriving DecidableEq

inductive RandomNumberAction where
  | startPolling (min max : Int)
  | pollingSuccess (randomNumber : Int)
  | pollingError (error : JsError)
deriving DecidableEq

def initialState (envPollingInterval : Int) : RandomNumberState :=
  { min := 0, max := 99, randomNumber := 0, errorMsg := "",
    pollingInterval := envPollingInterval }

def randomNumberReducer (state : RandomNumberState) (action : RandomNumberAction) :
    RandomNumberState :=
  match action with
  | .startPolling mn mx => { state with min := mn, max := mx }
  | .pollingSuccess n => { state with randomNumber := n, errorMsg := "" }
  | .pollingError e => { state with errorMsg := e.message }

/-! ## Presentation: `min-max-input.component.ts`

Each form control carries `Validators.required` and
`Validators.pattern('^[0-9]*$')`.  Control values are numbers (never null in
this model, so `required` always passes); the pattern validator tests the
decimal string of the value, accepting exactly digit-only strings.
`onSubmit` dispatches `startPolling` with the raw control values whenever the
form is valid, and dispatches nothing otherwise.
-/

def patternDigits (value : Int) : Bool :=
  (toString value).data.all Char.isDigit

def minMaxFormValid (minInput maxInput : Int) : Bool :=
  patternDigits minInput && patternDigits maxInput

def onSubmit (minInput maxInput : Int) : Option (Int × Int) :=
  if minMaxFormValid minInput maxInput then some (minInput, maxInput) else none

/-! ## Polling Pipeline: `random-number.effect.ts`

The effect is
`actions$ |> ofType(startPolling) |> withLatestFrom(interval) |> switchMap(
   timer(0, interval) |> takeUntil(stop) |> switchMap(service |> map(success)
   |> catchError(error)))`.

It is embedded as a discrete-event simulator over `Nat` instants, with the
production configuration `stopTimer = EMPTY` (the timer is never stopped from
outside, only superseded).  Within a single instant the rxjs `AsyncScheduler`
runs, in order: hot `startPolling` actions (scheduled before the flush), the
completion of an attempt scheduled at an earlier tick (the periodic timer
emits its tick before rescheduling the next one, so a completion due at the
same instant as the next tick runs first), the timer tick itself (which
cancels whatever attempt is still in flight and issues a new service call),
and finally the completion of a zero-delay attempt issued by that very tick.

`starts t` gives the `startPolling` action arriving at instant `t` (if any);
`svc t mn mx` gives the delay and outcome of the service call issued at
instant `t` with bounds `(mn, mx)`.
-/

abbrev PollResult := Except String Int

deriving instance DecidableEq for Except

inductive PollEvent where
  | success (randomNumber : Int)
  | error (msg : String)
deriving DecidableEq

def eventOf : PollResult → PollEvent
  | .ok n => .success n
  | .error e => .error e

structure Inflight where
  loopStart : Nat
  min : Int
  max : Int
  callTime : Nat
  compTime : Nat
  result : PollResult
deriving DecidableEq

structure Emit where
  time : Nat
  loopStart : Nat
  min : Int
  max : Int
  callTime : Nat
  ev : PollEvent
deriving DecidableEq

structure PipeState where
  loop : Option (Nat × Int × Int)
  inflight : Option Inflight
deriving DecidableEq

abbrev Service := Nat → Int → Int → Nat × PollResult

def stepStart (starts : Nat → Option (Int × Int)) (t : Nat) (st : PipeState) : PipeState :=
  match starts t with
  | some (mn, mx) => { loop := some (t, mn, mx), inflight := none }
  | none => st

def emitOf (f : Inflight) (t : Nat) : Emit :=
  { time := t, loopStart := f.loopStart, min := f.min, max := f.max,
    callTime := f.callTime, ev := eventOf f.result }

def stepEmit (t : Nat) (st : PipeState) : PipeState × List Emit :=
  match st.inflight with
  | some f =>
      if f.compTime = t then ({ loop := st.loop, inflight := none }, [emitOf f t])
      else (st, [])
  | none => (st, [])

def stepTick (I : Nat) (svc : Service) (t : Nat) (st : PipeState) : PipeState × List Nat :=
  match st.loop with
  | some (s, mn, mx) =>
      if s ≤ t ∧ (t - s) % I = 0 then
        ({ loop := st.loop,
           inflight := some { loopStart := s, min := mn, max := mx, callTime := t,
                              compTime := t + (svc t mn mx).1,
                              result := (svc t mn mx).2 } }, [t])
      else (st, [])
  | none => (st, [])

structure StepOut where
  state : PipeState
  emits : List Emit
  ticks : List Nat
deriving DecidableEq

def stepAt (I : Nat) (starts : Nat → Option (Int × Int)) (svc : Service) (t : Nat)
    (st : PipeState) : StepOut :=
  let st1 := stepStart starts t st
  let p2 := stepEmit t st1
  let p3 := stepTick I svc t p2.1
  let p4 := stepEmit t p3.1
  ⟨p4.1, p2.2 ++ p4.2, p3.2⟩

def randomNumberPolling (I : Nat) (starts : Nat → Option (Int × Int)) (svc : Service) :
    Nat → StepOut
  | 0 => ⟨⟨none, none⟩, [], []⟩
  | n + 1 =>
      let o := randomNumberPolling I starts svc n
      let s := stepAt I starts svc n o.state
      ⟨s.state, o.emits ++ s.emits, o.ticks ++ s.ticks⟩

/-! ### Invariants of the simulation -/

/-- The active loop was started by the most recent `startPolling`: its start
time is in the past and no later start has arrived. -/
def LoopInv (starts : Nat → Option (Int × Int)) (n : Nat)
    (lp : Option (Nat × Int × Int)) : Prop :=
  ∀ s mn mx, lp = some (s, mn, mx) →
    s < n ∧ starts s = some (mn, mx) ∧ ∀ u, s < u → u < n → starts u = none

/-- The in-flight attempt belongs to the active loop, was issued at a tick of
that loop, has not yet completed, and its superseding tick has not yet
fired. -/
def InfInv (I : Nat) (svc : Service) (n : Nat)
    (st : PipeState) : Prop :=
  ∀ f, st.inflight = some f →
    st.loop = some (f.loopStart, f.min, f.max) ∧
    f.loopStart ≤ f.callTime ∧ f.callTime < n ∧
    (f.callTime - f.loopStart) % I = 0 ∧
    f.compTime = f.callTime + (svc f.callTime f.min f.max).1 ∧
    f.result = (svc f.callTime f.min f.max).2 ∧
    n ≤ f.compTime ∧ n ≤ f.callTime + I

/-- Soundness of an observed event: it was produced by a tick-aligned attempt
of the loop started by `starts e.loopStart`, observed exactly at its
completion instant, its delay did not exceed the interval, its payload is the
faithful image of the service outcome, and no other `startPolling` arrived up
to the instant it was observed. -/
def EmitOk (I : Nat) (starts : Nat → Option (Int × Int)) (svc : Service) (e : Emit) : Prop :=
  starts e.loopStart = some (e.min, e.max) ∧
  e.loopStart ≤ e.callTime ∧
  (e.callTime - e.loopStart) % I = 0 ∧
  e.time = e.callTime + (svc e.callTime e.min e.max).1 ∧
  (svc e.callTime e.min e.max).1 ≤ I ∧
  e.ev = eventOf (svc e.callTime e.min e.max).2 ∧
  ∀ u, e.loopStart < u → u ≤ e.time → starts u = none

/-- The attempt issued by the tick at instant `n` of the loop `(s, mn, mx)`. -/
def freshInflight (svc : Service) (s : Nat) (mn mx : Int) (n : Nat) : Inflight :=
  ⟨s, mn, mx, n, n + (svc n mn mx).1, (svc n mn mx).2⟩

/-! ### Concrete runs used by the scenario claim and the witnesses -/

/-- A single `startPolling({min: 0, max: 99})` at instant 0. -/
def startsOnce : Nat → Option (Int × Int) :=
  fun t => if t = 0 then some (0, 99) else none

/-- The service of the successful-polling test: three immediate values
42, 33, 2 at the three ticks of a 30-unit interval. -/
def svcScenario : Service :=
  fun t _ _ =>
    if t = 0 then (0, .ok 42)
    else if t = 30 then (0, .ok 33)
    else if t = 60 then (0, .ok 2) else (0, .ok 0)

/-- A service answering immediately with 7. -/
def svcAlways7 : Service := fun _ _ _ => (0, .ok 7)

/-- A service that fails after one instant. -/
def svcFailing : Service := fun _ _ _ => (1, .error "boom")

/-- Two starts: `(0, 9)` at instant 0, then `(1, 5)` at instant 4. -/
def startsTwice : Nat → Option (Int × Int) :=
  fun t => if t = 0 then some (0, 9) else if t = 4 then some (1, 5) else none

/-- The first event of the run of `svcAlways7` under `startsOnce`. -/
def emitW : Emit :=
  { time := 0, loopStart := 0, min := 0, max := 99, callTime := 0, ev := .success 7 }

/-- The first event of the run of `svcFailing` under `startsOnce`. -/
def emitE : Emit :=
  { time := 1, loopStart := 0, min := 0, max := 99, callTime := 0, ev := .error "boom" }

/-- The first event of the run of `svcAlways7` under `startsTwice`. -/
def emitW3 : Emit :=
  { time := 0, loopStart := 0, min := 0, max := 9, callTime := 0, ev := .success 7 }

/-! ## Theorems -/

/-- C5 helper style: the reducer never changes `pollingInterval`. -/
theorem randomNumberReducer_pollingInterval (s : RandomNumberState)
    (a : RandomNumberAction) :
    (randomNumberReducer s a).pollingInterval = s.pollingInterval := by
  cases a <;> rfl

/-- C1 counterexample: with `min = max = 5` (so `min ≤ max`) and
`Math.random() = 0`, the service returns 5, which is not `< max`; the claim
fails at the degenerate pair. -/
theorem getRandomInteger_min_eq_max_counterexample :
    (0 : ℚ) ≤ 0 ∧ (0 : ℚ) < 1 ∧ (5 : ℤ) ≤ 5 ∧
      ¬ (getRandomInteger 0 5 5 < 5) := by
  refine ⟨le_refl _, by norm_num, le_refl _, ?_⟩
  norm_num [getRandomInteger]

/-- C1 (amended): for every nondegenerate pair `min < max` and every
`Math.random()` outcome `0 ≤ random < 1`, the value produced by
`getRandomInteger(min, max)` satisfies `min ≤ value < max`. -/
theorem getRandomInteger_range (random : ℚ) (min max : ℤ)
    (h0 : 0 ≤ random) (h1 : random < 1) (hlt : min < max) :
    min ≤ getRandomInteger random min max ∧ getRandomInteger random min max < max := by
  unfold getRandomInteger
  have hd : (0 : ℚ) < (max : ℚ) - (min : ℚ) := by
    have : (min : ℚ) < (max : ℚ) := by exact_mod_cast hlt
    linarith
  have hlo : (0 : ℤ) ≤ Int.floor (random * ((max : ℚ) - (min : ℚ))) := by
    apply Int.floor_nonneg.mpr
    exact mul_nonneg h0 hd.le
  have hhi : Int.floor (random * ((max : ℚ) - (min : ℚ))) < max - min := by
    apply Int.floor_lt.mpr
    have : random * ((max : ℚ) - (min : ℚ)) < (max : ℚ) - (min : ℚ) :=
      mul_lt_of_lt_one_left hd h1
    push_cast
    linarith
  omega

/-- C1 witness: at `random = 1/2`, `min = 0`, `max = 99` the amended bounds
hold. -/
theorem getRandomInteger_range_witness :
    (0 : ℤ) ≤ getRandomInteger (1 / 2) 0 99 ∧ getRandomInteger (1 / 2) 0 99 < 99 :=
  getRandomInteger_range (1 / 2) 0 99 (by norm_num) (by norm_num) (by norm_num)

/-- C5: for every state and every `pollingSuccess{randomNumber}`, the reducer
sets `randomNumber` to the value, clears `errorMsg`, and leaves `min`, `max`
and `pollingInterval` unchanged; moreover `startPolling` retains `errorMsg`,
so an error message set earlier survives until the next success and is
cleared exactly then. -/
theorem randomNumberReducer_pollingSuccess (s : RandomNumberState) (v : Int) :
    (randomNumberReducer s (.pollingSuccess v)).randomNumber = v ∧
    (randomNumberReducer s (.pollingSuccess v)).errorMsg = "" ∧
    (randomNumberReducer s (.pollingSuccess v)).min = s.min ∧
    (randomNumberReducer s (.pollingSuccess v)).max = s.max ∧
    (randomNumberReducer s (.pollingSuccess v)).pollingInterval = s.pollingInterval ∧
    ∀ mn mx, (randomNumberReducer s (.startPolling mn mx)).errorMsg = s.errorMsg :=
  ⟨rfl, rfl, rfl, rfl, rfl, fun _ _ => rfl⟩

/-- C6: for every state and every `pollingError{error}`, the reducer sets
`errorMsg` from the error's message and leaves `randomNumber`, `min`, `max`
and `pollingInterval` unchanged: an error never erases the last known good
value. -/
theorem randomNumberReducer_pollingError (s : RandomNumberState) (e : JsError) :
    (randomNumberReducer s (.pollingError e)).errorMsg = e.message ∧
    (randomNumberReducer s (.pollingError e)).randomNumber = s.randomNumber ∧
    (randomNumberReducer s (.pollingError e)).min = s.min ∧
    (randomNumberReducer s (.pollingError e)).max = s.max ∧
    (randomNumberReducer s (.pollingError e)).pollingInterval = s.pollingInterval :=
  ⟨rfl, rfl, rfl, rfl, rfl⟩

/-- C8: `pollingInterval` is set once from configuration in `initialState`
and no sequence of reducer transitions (`startPolling`, `pollingSuccess`,
`pollingError`) ever changes it. -/
theorem pollingInterval_invariant (env : Int) (acts : List RandomNumberAction) :
    (acts.foldl randomNumberReducer (initialState env)).pollingInterval = env := by
  have h : ∀ (l : List RandomNumberAction) (s : RandomNumberState),
      (l.foldl randomNumberReducer s).pollingInterval = s.pollingInterval := by
    intro l
    induction l with
    | nil => intro s; rfl
    | cons a l ih =>
        intro s
        rw [List.foldl_cons, ih, randomNumberReducer_pollingInterval]
  exact h acts (initialState env)

/-- C9: applying the same `pollingSuccess` twice in sequence yields the same
state as applying it once: the success transition is idempotent. -/
theorem randomNumberReducer_pollingSuccess_idempotent (s : RandomNumberState) (v : Int) :
    randomNumberReducer (randomNumberReducer s (.pollingSuccess v)) (.pollingSuccess v) =
      randomNumberReducer s (.pollingSuccess v) := rfl

/-- C10: form validation only checks the digit pattern on each field, never
the order of the bounds: with `minInput = 10`, `maxInput = 5` the form is
valid and `onSubmit` dispatches `startPolling{min: 10, max: 5}` although
`10 ≤ 5` fails, violating the Value Source's `min ≤ max` precondition. -/
theorem minMaxInput_no_order_check :
    (∀ mn mx : Int, minMaxFormValid mn mx = (patternDigits mn && patternDigits mx)) ∧
    minMaxFormValid 10 5 = true ∧
    onSubmit 10 5 = some (10, 5) ∧
    ¬ ((10 : Int) ≤ 5) :=
  ⟨fun _ _ => rfl, by decide, by decide, by decide⟩

/-! ### Step lemmas for the polling pipeline -/

theorem stepStart_some (starts : Nat → Option (Int × Int)) (t : Nat) (st : PipeState)
    (mn mx : Int) (h : starts t = some (mn, mx)) :
    stepStart starts t st = ⟨some (t, mn, mx), none⟩ := by
  simp [stepStart, h]

theorem stepStart_none (starts : Nat → Option (Int × Int)) (t : Nat) (st : PipeState)
    (h : starts t = none) : stepStart starts t st = st := by
  simp [stepStart, h]

theorem stepEmit_none (t : Nat) (lp : Option (Nat × Int × Int)) :
    stepEmit t ⟨lp, none⟩ = (⟨lp, none⟩, []) := rfl

theorem stepEmit_hit (t : Nat) (lp : Option (Nat × Int × Int)) (f : Inflight)
    (h : f.compTime = t) :
    stepEmit t ⟨lp, some f⟩ = (⟨lp, none⟩, [emitOf f t]) := by
  simp [stepEmit, h]

theorem stepEmit_miss (t : Nat) (lp : Option (Nat × Int × Int)) (f : Inflight)
    (h : f.compTime ≠ t) :
    stepEmit t ⟨lp, some f⟩ = (⟨lp, some f⟩, []) := by
  simp [stepEmit, h]

theorem stepTick_none (I : Nat) (svc : Service) (t : Nat) (infl : Option Inflight) :
    stepTick I svc t ⟨none, infl⟩ = (⟨none, infl⟩, []) := rfl

theorem stepTick_skip (I : Nat) (svc : Service) (t : Nat) (infl : Option Inflight)
    (s : Nat) (mn mx : Int) (h : ¬ (s ≤ t ∧ (t - s) % I = 0)) :
    stepTick I svc t ⟨some (s, mn, mx), infl⟩ = (⟨some (s, mn, mx), infl⟩, []) := by
  simp only [stepTick, if_neg h]

theorem loopInv_none (starts : Nat → Option (Int × Int)) (n : Nat) :
    LoopInv starts n none := by
  intro s mn mx h
  simp at h

theorem infInv_none (I : Nat) (svc : Service) (n : Nat) (lp : Option (Nat × Int × Int)) :
    InfInv I svc n ⟨lp, none⟩ := by
  intro f hf
  simp at hf

theorem loopInv_of_mid (starts : Nat → Option (Int × Int)) (n s : Nat) (mn mx : Int)
    (hs : s ≤ n) (hstart : starts s = some (mn, mx))
    (hnone : ∀ u, s < u → u ≤ n → starts u = none) :
    LoopInv starts (n + 1) (some (s, mn, mx)) := by
  intro s' mn' mx' h
  simp only [Option.some.injEq, Prod.mk.injEq] at h
  obtain ⟨rfl, rfl, rfl⟩ := h
  exact ⟨Nat.lt_succ_of_le hs, hstart, fun u h1 h2 => hnone u h1 (Nat.lt_succ_iff.mp h2)⟩

theorem emitOk_pending (I : Nat) (starts : Nat → Option (Int × Int)) (svc : Service)
    (n : Nat) (f : Inflight)
    (h1 : starts f.loopStart = some (f.min, f.max))
    (h2 : f.loopStart ≤ f.callTime)
    (hmod : (f.callTime - f.loopStart) % I = 0)
    (hcomp : f.compTime = f.callTime + (svc f.callTime f.min f.max).1)
    (hres : f.result = (svc f.callTime f.min f.max).2)
    (hle : n ≤ f.callTime + I)
    (hnone : ∀ u, f.loopStart < u → u ≤ n → starts u = none)
    (hc : f.compTime = n) :
    EmitOk I starts svc (emitOf f n) ∧ (emitOf f n).time = n := by
  constructor
  · unfold EmitOk
    dsimp only [emitOf]
    exact ⟨h1, h2, hmod, by omega, by omega, by rw [hres], fun u hu1 hu2 => hnone u hu1 hu2⟩
  · rfl

theorem stepTick_fire' (I : Nat) (svc : Service) (t : Nat) (infl : Option Inflight)
    (s : Nat) (mn mx : Int) (h : s ≤ t ∧ (t - s) % I = 0) :
    stepTick I svc t ⟨some (s, mn, mx), infl⟩ =
      (⟨some (s, mn, mx), some (freshInflight svc s mn mx t)⟩, [t]) := by
  simp [stepTick, freshInflight, h]

theorem emitOk_fresh' (I : Nat) (starts : Nat → Option (Int × Int)) (svc : Service)
    (n s : Nat) (mn mx : Int)
    (hs : s ≤ n) (hstart : starts s = some (mn, mx))
    (hnone : ∀ u, s < u → u ≤ n → starts u = none)
    (hmod : (n - s) % I = 0)
    (hd : (svc n mn mx).1 = 0) :
    EmitOk I starts svc (emitOf (freshInflight svc s mn mx n) n) ∧
      (emitOf (freshInflight svc s mn mx n) n).time = n := by
  constructor
  · unfold EmitOk
    dsimp only [emitOf, freshInflight]
    exact ⟨hstart, hs, hmod, by omega, by omega, rfl, fun u h1 h2 => hnone u h1 h2⟩
  · rfl

theorem infInv_fresh' (I : Nat) (svc : Service) (n s : Nat) (mn mx : Int) (hI : 0 < I)
    (hs : s ≤ n) (hmod : (n - s) % I = 0)
    (hd : (svc n mn mx).1 ≠ 0) :
    InfInv I svc (n + 1) ⟨some (s, mn, mx), some (freshInflight svc s mn mx n)⟩ := by
  intro f hf
  simp only [Option.some.injEq] at hf
  subst hf
  dsimp only [freshInflight]
  refine ⟨rfl, hs, Nat.lt_succ_self n, hmod, rfl, rfl, by omega, by omega⟩

theorem stepAt_inv (I : Nat) (hI : 0 < I) (starts : Nat → Option (Int × Int)) (svc : Service)
    (n : Nat) (st : PipeState)
    (hL : LoopInv starts n st.loop) (hF : InfInv I svc n st) :
    LoopInv starts (n + 1) (stepAt I starts svc n st).state.loop ∧
    InfInv I svc (n + 1) (stepAt I starts svc n st).state ∧
    ∀ e ∈ (stepAt I starts svc n st).emits, EmitOk I starts svc e ∧ e.time = n := by
  obtain ⟨lp, infl⟩ := st
  dsimp only at hL hF
  simp only [stepAt]
  cases hs : starts n with
  | some p =>
      obtain ⟨mn, mx⟩ := p
      rw [stepStart_some starts n ⟨lp, infl⟩ mn mx hs]
      rw [stepEmit_none]
      dsimp only
      rw [stepTick_fire' I svc n none n mn mx ⟨le_refl n, by simp⟩]
      dsimp only
      have hmid : ∀ u, n < u → u ≤ n → starts u = none := fun u h1 h2 => absurd h1 (by omega)
      by_cases hd : (svc n mn mx).1 = 0
      · rw [stepEmit_hit n (some (n, mn, mx)) (freshInflight svc n mn mx n)
          (by dsimp only [freshInflight]; omega)]
        dsimp only
        refine ⟨loopInv_of_mid starts n n mn mx (le_refl n) hs hmid,
          infInv_none I svc (n + 1) _, ?_⟩
        intro e he
        simp only [List.nil_append, List.mem_singleton] at he
        subst he
        exact emitOk_fresh' I starts svc n n mn mx (le_refl n) hs hmid (by simp) hd
      · rw [stepEmit_miss n (some (n, mn, mx)) (freshInflight svc n mn mx n)
          (by dsimp only [freshInflight]; omega)]
        dsimp only
        refine ⟨loopInv_of_mid starts n n mn mx (le_refl n) hs hmid,
          infInv_fresh' I svc n n mn mx hI (le_refl n) (by simp) hd, ?_⟩
        simp
  | none =>
      rw [stepStart_none starts n ⟨lp, infl⟩ hs]
      cases infl with
      | none =>
          rw [stepEmit_none]
          dsimp only
          cases lp with
          | none =>
              rw [stepTick_none, stepEmit_none]
              dsimp only
              exact ⟨loopInv_none starts (n + 1), infInv_none I svc (n + 1) none, by simp⟩
          | some q =>
              obtain ⟨s, mn, mx⟩ := q
              obtain ⟨hs1, hs2, hs3⟩ := hL s mn mx rfl
              have hmid : ∀ u, s < u → u ≤ n → starts u = none := by
                intro u h1 h2
                rcases Nat.lt_or_ge u n with h | h
                · exact hs3 u h1 h
                · have hu : u = n := le_antisymm h2 h
                  subst hu
                  exact hs
              by_cases ht : s ≤ n ∧ (n - s) % I = 0
              · rw [stepTick_fire' I svc n none s mn mx ht]
                dsimp only
                by_cases hd : (svc n mn mx).1 = 0
                · rw [stepEmit_hit n (some (s, mn, mx)) (freshInflight svc s mn mx n)
                    (by dsimp only [freshInflight]; omega)]
                  dsimp only
                  refine ⟨loopInv_of_mid starts n s mn mx ht.1 hs2 hmid,
                    infInv_none I svc (n + 1) _, ?_⟩
                  intro e he
                  simp only [List.nil_append, List.mem_singleton] at he
                  subst he
                  exact emitOk_fresh' I starts svc n s mn mx ht.1 hs2 hmid ht.2 hd
                · rw [stepEmit_miss n (some (s, mn, mx)) (freshInflight svc s mn mx n)
                    (by dsimp only [freshInflight]; omega)]
                  dsimp only
                  exact ⟨loopInv_of_mid starts n s mn mx ht.1 hs2 hmid,
                    infInv_fresh' I svc n s mn mx hI ht.1 ht.2 hd, by simp⟩
              · rw [stepTick_skip I svc n none s mn mx ht, stepEmit_none]
                dsimp only
                exact ⟨loopInv_of_mid starts n s mn mx hs1.le hs2 hmid,
                  infInv_none I svc (n + 1) _, by simp⟩
      | some f =>
          obtain ⟨hf1, hf2, hf3, hf4, hf5, hf6, hf7, hf8⟩ := hF f rfl
          dsimp only at hf1
          subst hf1
          obtain ⟨hs1, hs2, hs3⟩ := hL f.loopStart f.min f.max rfl
          have hmid : ∀ u, f.loopStart < u → u ≤ n → starts u = none := by
            intro u h1 h2
            rcases Nat.lt_or_ge u n with h | h
            · exact hs3 u h1 h
            · have hu : u = n := le_antisymm h2 h
              subst hu
              exact hs
          by_cases hc : f.compTime = n
          · rw [stepEmit_hit n (some (f.loopStart, f.min, f.max)) f hc]
            dsimp only
            by_cases ht : f.loopStart ≤ n ∧ (n - f.loopStart) % I = 0
            · rw [stepTick_fire' I svc n none f.loopStart f.min f.max ht]
              dsimp only
              by_cases hd : (svc n f.min f.max).1 = 0
              · rw [stepEmit_hit n (some (f.loopStart, f.min, f.max))
                  (freshInflight svc f.loopStart f.min f.max n)
                  (by dsimp only [freshInflight]; omega)]
                dsimp only
                refine ⟨loopInv_of_mid starts n f.loopStart f.min f.max ht.1 hs2 hmid,
                  infInv_none I svc (n + 1) _, ?_⟩
                intro e he
                simp only [List.mem_append, List.mem_singleton] at he
                rcases he with he | he
                · subst he
                  exact emitOk_pending I starts svc n f hs2 hf2 hf4 hf5 hf6 hf8 hmid hc
                · subst he
                  exact emitOk_fresh' I starts svc n f.loopStart f.min f.max ht.1 hs2 hmid ht.2 hd
              · rw [stepEmit_miss n (some (f.loopStart, f.min, f.max))
                  (freshInflight svc f.loopStart f.min f.max n)
                  (by dsimp only [freshInflight]; omega)]
                dsimp only
                refine ⟨loopInv_of_mid starts n f.loopStart f.min f.max ht.1 hs2 hmid,
                  infInv_fresh' I svc n f.loopStart f.min f.max hI ht.1 ht.2 hd, ?_⟩
                intro e he
                simp only [List.append_nil, List.mem_singleton] at he
                subst he
                exact emitOk_pending I starts svc n f hs2 hf2 hf4 hf5 hf6 hf8 hmid hc
            · rw [stepTick_skip I svc n none f.loopStart f.min f.max ht, stepEmit_none]
              dsimp only
              refine ⟨loopInv_of_mid starts n f.loopStart f.min f.max hs1.le hs2 hmid,
                infInv_none I svc (n + 1) _, ?_⟩
              intro e he
              simp only [List.append_nil, List.mem_singleton] at he
              subst he
              exact emitOk_pending I starts svc n f hs2 hf2 hf4 hf5 hf6 hf8 hmid hc
          · rw [stepEmit_miss n (some (f.loopStart, f.min, f.max)) f hc]
            dsimp only
            by_cases ht : f.loopStart ≤ n ∧ (n - f.loopStart) % I = 0
            · rw [stepTick_fire' I svc n (some f) f.loopStart f.min f.max ht]
              dsimp only
              by_cases hd : (svc n f.min f.max).1 = 0
              · rw [stepEmit_hit n (some (f.loopStart, f.min, f.max))
                  (freshInflight svc f.loopStart f.min f.max n)
                  (by dsimp only [freshInflight]; omega)]
                dsimp only
                refine ⟨loopInv_of_mid starts n f.loopStart f.min f.max ht.1 hs2 hmid,
                  infInv_none I svc (n + 1) _, ?_⟩
                intro e he
                simp only [List.nil_append, List.mem_singleton] at he
                subst he
                exact emitOk_fresh' I starts svc n f.loopStart f.min f.max ht.1 hs2 hmid ht.2 hd
              · rw [stepEmit_miss n (some (f.loopStart, f.min, f.max))
                  (freshInflight svc f.loopStart f.min f.max n)
                  (by dsimp only [freshInflight]; omega)]
                dsimp only
                exact ⟨loopInv_of_mid starts n f.loopStart f.min f.max ht.1 hs2 hmid,
                  infInv_fresh' I svc n f.loopStart f.min f.max hI ht.1 ht.2 hd, by simp⟩
            · rw [stepTick_skip I svc n (some f) f.loopStart f.min f.max ht]
              dsimp only
              rw [stepEmit_miss n (some (f.loopStart, f.min, f.max)) f hc]
              dsimp only
              refine ⟨loopInv_of_mid starts n f.loopStart f.min f.max hs1.le hs2 hmid, ?_, by simp⟩
              intro f' hf'
              dsimp only at hf'
              simp only [Option.some.injEq] at hf'
              subst hf'
              refine ⟨rfl, hf2, by omega, hf4, hf5, hf6, by omega, ?_⟩
              by_contra hcon
              push_neg at hcon
              have heq : f.callTime + I = n := by omega
              have hmod0 : (n - f.loopStart) % I = 0 := by
                have h1 : n - f.loopStart = (f.callTime - f.loopStart) + I := by omega
                rw [h1, Nat.add_mod_right, hf4]
              exact ht ⟨by omega, hmod0⟩

theorem randomNumberPolling_inv (I : Nat) (hI : 0 < I) (starts : Nat → Option (Int × Int))
    (svc : Service) (n : Nat) :
    LoopInv starts n (randomNumberPolling I starts svc n).state.loop ∧
    InfInv I svc n (randomNumberPolling I starts svc n).state ∧
    ∀ e ∈ (randomNumberPolling I starts svc n).emits, EmitOk I starts svc e ∧ e.time < n := by
  induction n with
  | zero =>
      refine ⟨?_, ?_, ?_⟩
      · intro s mn mx h
        simp [randomNumberPolling] at h
      · intro f hf
        simp [randomNumberPolling] at hf
      · intro e he
        simp [randomNumberPolling] at he
  | succ n ih =>
      obtain ⟨hL, hF, hE⟩ := ih
      obtain ⟨hL2, hF2, hE2⟩ :=
        stepAt_inv I hI starts svc n (randomNumberPolling I starts svc n).state hL hF
      simp only [randomNumberPolling]
      refine ⟨hL2, hF2, ?_⟩
      intro e he
      simp only [List.mem_append] at he
      rcases he with he | he
      · obtain ⟨h1, h2⟩ := hE e he
        exact ⟨h1, by omega⟩
      · obtain ⟨h1, h2⟩ := hE2 e he
        exact ⟨h1, by omega⟩

theorem stepEmit_loop (t : Nat) (st : PipeState) : (stepEmit t st).1.loop = st.loop := by
  obtain ⟨lp, infl⟩ := st
  cases infl with
  | none => rfl
  | some f =>
      by_cases h : f.compTime = t
      · rw [stepEmit_hit t lp f h]
      · rw [stepEmit_miss t lp f h]

theorem stepTick_loop (I : Nat) (svc : Service) (t : Nat) (st : PipeState) :
    (stepTick I svc t st).1.loop = st.loop := by
  obtain ⟨lp, infl⟩ := st
  cases lp with
  | none => rfl
  | some q =>
      obtain ⟨s, mn, mx⟩ := q
      by_cases ht : s ≤ t ∧ (t - s) % I = 0
      · rw [stepTick_fire' I svc t infl s mn mx ht]
      · rw [stepTick_skip I svc t infl s mn mx ht]

theorem stepTick_ticks_congr (I : Nat) (svc svc' : Service) (t : Nat) (st st' : PipeState)
    (h : st.loop = st'.loop) :
    (stepTick I svc t st).2 = (stepTick I svc' t st').2 := by
  obtain ⟨lp, infl⟩ := st
  obtain ⟨lp', infl'⟩ := st'
  dsimp only at h
  subst h
  cases lp with
  | none => rfl
  | some q =>
      obtain ⟨s, mn, mx⟩ := q
      by_cases ht : s ≤ t ∧ (t - s) % I = 0
      · rw [stepTick_fire' I svc t infl s mn mx ht, stepTick_fire' I svc' t infl' s mn mx ht]
      · rw [stepTick_skip I svc t infl s mn mx ht, stepTick_skip I svc' t infl' s mn mx ht]

theorem stepStart_loop_congr (starts : Nat → Option (Int × Int)) (t : Nat)
    (st st' : PipeState) (h : st.loop = st'.loop) :
    (stepStart starts t st).loop = (stepStart starts t st').loop := by
  unfold stepStart
  cases hs : starts t with
  | none => exact h
  | some p =>
      obtain ⟨mn, mx⟩ := p
      rfl

theorem stepAt_loop_ticks (I : Nat) (starts : Nat → Option (Int × Int)) (svc svc' : Service)
    (n : Nat) (st st' : PipeState) (h : st.loop = st'.loop) :
    (stepAt I starts svc n st).state.loop = (stepAt I starts svc' n st').state.loop ∧
    (stepAt I starts svc n st).ticks = (stepAt I starts svc' n st').ticks := by
  simp only [stepAt]
  have hst : (stepStart starts n st).loop = (stepStart starts n st').loop :=
    stepStart_loop_congr starts n st st' h
  have h2 : (stepEmit n (stepStart starts n st)).1.loop =
      (stepEmit n (stepStart starts n st')).1.loop := by
    rw [stepEmit_loop, stepEmit_loop]
    exact hst
  constructor
  · dsimp only
    simp only [stepEmit_loop, stepTick_loop]
    exact hst
  · dsimp only
    exact stepTick_ticks_congr I svc svc' n _ _ h2

theorem randomNumberPolling_ticks_indep (I : Nat) (starts : Nat → Option (Int × Int))
    (svc svc' : Service) (n : Nat) :
    (randomNumberPolling I starts svc n).state.loop =
      (randomNumberPolling I starts svc' n).state.loop ∧
    (randomNumberPolling I starts svc n).ticks =
      (randomNumberPolling I starts svc' n).ticks := by
  induction n with
  | zero => exact ⟨rfl, rfl⟩
  | succ n ih =>
      obtain ⟨h1, h2⟩ := ih
      obtain ⟨h3, h4⟩ := stepAt_loop_ticks I starts svc svc' n _ _ h1
      simp only [randomNumberPolling]
      exact ⟨h3, by rw [h2, h4]⟩

/-- C2: in the polling pipeline, every observed event comes from an attempt
whose delay did not exceed the interval, observed exactly at its completion
instant `callTime + delay` (hence no later than the next tick at
`callTime + I`, where the next attempt starts), and issued at a tick of its
loop: an attempt whose completion is delayed past the next tick is discarded
and is never observed, and only the most recently started attempt's result
can be emitted. -/
theorem polling_supersede_stale_attempt (I : Nat) (hI : 0 < I)
    (starts : Nat → Option (Int × Int)) (svc : Service) (n : Nat) :
    ∀ e ∈ (randomNumberPolling I starts svc n).emits,
      (svc e.callTime e.min e.max).1 ≤ I ∧
      e.time = e.callTime + (svc e.callTime e.min e.max).1 ∧
      (e.callTime - e.loopStart) % I = 0 := by
  intro e he
  obtain ⟨hok, -⟩ := (randomNumberPolling_inv I hI starts svc n).2.2 e he
  obtain ⟨-, -, hmod, htime, hdel, -, -⟩ := hok
  exact ⟨hdel, htime, hmod⟩

/-- C2 witness: the first event of a concrete run satisfies the supersede
bounds. -/
theorem polling_supersede_stale_attempt_witness :
    (svcAlways7 emitW.callTime emitW.min emitW.max).1 ≤ 3 ∧
    emitW.time = emitW.callTime + (svcAlways7 emitW.callTime emitW.min emitW.max).1 ∧
    (emitW.callTime - emitW.loopStart) % 3 = 0 :=
  polling_supersede_stale_attempt 3 (by decide) startsOnce svcAlways7 1 emitW (by decide)

/-- C3: a `startPolling` arriving at instant `u` supersedes every loop
started earlier: any event of a loop started before `u` is observed strictly
before `u` — no `pollingSuccess` or `pollingError` originating from ticks
scheduled under the old `(min, max)` is ever observed at or after the new
`startPolling` (and the state holds at most one loop at any time). -/
theorem polling_restart_supersedes_old_loop (I : Nat) (hI : 0 < I)
    (starts : Nat → Option (Int × Int)) (svc : Service) (n : Nat) :
    ∀ e ∈ (randomNumberPolling I starts svc n).emits,
      ∀ u, e.loopStart < u → starts u ≠ none → e.time < u := by
  intro e he u hu hstart
  obtain ⟨hok, -⟩ := (randomNumberPolling_inv I hI starts svc n).2.2 e he
  obtain ⟨-, -, -, -, -, -, hnone⟩ := hok
  by_contra hcon
  push_neg at hcon
  exact hstart (hnone u hu hcon)

/-- C3 witness: in a run with a second start at instant 4, the first loop's
event is observed before instant 4. -/
theorem polling_restart_supersedes_old_loop_witness : emitW3.time < 4 :=
  polling_restart_supersedes_old_loop 3 (by decide) startsTwice svcAlways7 5 emitW3
    (by decide) 4 (by decide) (by decide)

/-- C4: a failed attempt is emitted as `pollingError` (every observed event
is the faithful image of its service outcome, the error caught by
`catchError` and mapped, never thrown to the caller), and the polling loop is
never stopped by outcomes: the tick schedule is entirely independent of the
service behaviour, and in the concrete failing run the errors at instants 1
and 4 are observed while ticks still fire at 0, 3 and 6. -/
theorem polling_error_does_not_stop_loop (I : Nat) (hI : 0 < I)
    (starts : Nat → Option (Int × Int)) (svc svc' : Service) (n : Nat) :
    (∀ e ∈ (randomNumberPolling I starts svc n).emits,
        e.ev = eventOf (svc e.callTime e.min e.max).2) ∧
    (randomNumberPolling I starts svc n).ticks =
      (randomNumberPolling I starts svc' n).ticks ∧
    (randomNumberPolling 3 startsOnce svcFailing 7).emits =
      [{ time := 1, loopStart := 0, min := 0, max := 99, callTime := 0, ev := .error "boom" },
       { time := 4, loopStart := 0, min := 0, max := 99, callTime := 3, ev := .error "boom" }] ∧
    (randomNumberPolling 3 startsOnce svcFailing 7).ticks = [0, 3, 6] := by
  refine ⟨?_, (randomNumberPolling_ticks_indep I starts svc svc' n).2, by decide, by decide⟩
  intro e he
  obtain ⟨hok, -⟩ := (randomNumberPolling_inv I hI starts svc n).2.2 e he
  exact hok.2.2.2.2.2.1

/-- C4 witness: the concrete failing attempt is observed as `pollingError`
and the tick schedule matches that of an always-succeeding service. -/
theorem polling_error_does_not_stop_loop_witness :
    emitE.ev = eventOf (svcFailing emitE.callTime emitE.min emitE.max).2 ∧
    (randomNumberPolling 3 startsOnce svcFailing 2).ticks =
      (randomNumberPolling 3 startsOnce svcAlways7 2).ticks := by
  have h := polling_error_does_not_stop_loop 3 (by decide) startsOnce svcFailing svcAlways7 2
  exact ⟨h.1 emitE (by decide), h.2.1⟩

/-- C7: with interval 30 and three zero-delay attempts returning 42, 33, 2,
the observed output is exactly `pollingSuccess 42` at t = 0 (tick 0 fires
immediately on start), `pollingSuccess 33` at t = 30 and `pollingSuccess 2`
at t = 60, the ticks firing at 0, 30, 60. -/
theorem polling_scenario_42_33_2 :
    (randomNumberPolling 30 startsOnce svcScenario 61).emits =
      [{ time := 0, loopStart := 0, min := 0, max := 99, callTime := 0, ev := .success 42 },
       { time := 30, loopStart := 0, min := 0, max := 99, callTime := 30, ev := .success 33 },
       { time := 60, loopStart := 0, min := 0, max := 99, callTime := 60, ev := .success 2 }] ∧
    (randomNumberPolling 30 startsOnce svcScenario 61).ticks = [0, 30, 60] := by
  constructor <;> decide
